import Mathlib

/-!
Verification development for the YBaseLib socket reactor core and its
collaborators, against the repository headers under src/Include.

The repository fragment exposes only headers (declarations plus the inline
member bodies).  Where a member function's body lives in a translation unit
that is absent from src/, the corresponding Lean definition is modelled from
the specification and marked `Modelled from the spec:` in its doc comment.
Field and member names follow the source headers.
-/

namespace YBase

/-! ## Error taxonomy (spec section 7) -/

/-- Error taxonomy of the socket layer, from the specification's error
handling design: address-parse failures and duplicate registrations are
the two synchronous error values the claims mention. -/
inductive SocketLibError where
  | AddressParseError
  | AlreadyRegisteredError
  deriving DecidableEq, Repr

/-! ## BaseSocket state machine and Close (claim C1)

`ListenSocket::Close` is declared in
src/Include/YBaseLib/Sockets/Generic/ListenSocket.h line 21; its body is in a
translation unit absent from src/.  The state machine `Open → Closing → Closed`
and the idempotence contract come from spec sections 4.2 and 3. -/

/-- Socket lifecycle states from the spec state machine: Open (registered,
eligible for events), Closing (descriptor detached, object may outlive),
Closed (terminal). -/
inductive SockState where
  | open
  | closing
  | closed
  deriving DecidableEq, Repr

/-- A socket as the close-relevant fragment of BaseSocket: its lifecycle
state, whether the OS descriptor has been released, and the descriptor
number itself (src header: int m_fileDescriptor). -/
structure Socket where
  state : SockState
  fdReleased : Bool
  fd : Nat
  deriving DecidableEq, Repr

/-- Result of one Close() call: the updated socket, the updated multiplexer
registry of descriptors, whether this call released the OS descriptor, and
whether it raised an error. -/
structure CloseResult where
  sock : Socket
  registry : List Nat
  releasedNow : Bool
  errored : Bool
  deriving DecidableEq, Repr

/-- Modelled from the spec: BaseSocket/ListenSocket Close() (body absent from
src/).  The first call on an open socket releases the OS descriptor,
deregisters the descriptor from the owning multiplexer and moves the state
machine to Closing; a call on a socket that is not open is a no-op that
raises no error. -/
def Close (s : Socket) (registry : List Nat) : CloseResult :=
  if s.state = SockState.open then
    { sock := { s with state := SockState.closing, fdReleased := true }
      registry := registry.erase s.fd
      releasedNow := true
      errored := false }
  else
    { sock := s, registry := registry, releasedNow := false, errored := false }

/-- Run n successive Close() calls, returning the final socket and registry
together with the total number of calls that released the OS descriptor. -/
def closeN : Nat → Socket → List Nat → (Socket × List Nat) × Nat
  | 0, s, reg => ((s, reg), 0)
  | n + 1, s, reg =>
      let r := Close s reg
      let rest := closeN n r.sock r.registry
      (rest.1, (if r.releasedNow then 1 else 0) + rest.2)

/-! ## SocketMultiplexer registry and RegisterSocket (claim C2)

SocketMultiplexer.h is absent from src/; the registry model (descriptor keys
unique) and RegisterSocket contract come from spec sections 3 and 4.4. -/

/-- Modelled from the spec: SocketMultiplexer::RegisterSocket (header and body
absent from src/).  The registry maps descriptors to owning sockets with
unique keys; registering a descriptor that is already tracked fails with
AlreadyRegisteredError and leaves the registry untouched, otherwise the
pair is added to the active set. -/
def RegisterSocket (registry : List (Nat × Nat)) (fd sockId : Nat) :
    Except SocketLibError (List (Nat × Nat)) :=
  if fd ∈ registry.map Prod.fst then
    Except.error SocketLibError.AlreadyRegisteredError
  else
    Except.ok (registry ++ [(fd, sockId)])

/-! ## SocketAddress (claims C5, C8)

SocketAddress.h/.cpp are absent from src/ (only the forward uses in
ListenSocket.h are visible); the textual format `host:port` for IPv4 and the
AddressParseError failure come from spec sections 4.1 and 6. -/

/-- An IPv4 socket address: four octets and a port (spec data model: family
tag determines the interpretation; the textual claims exercise the IPv4
family). -/
structure SocketAddress where
  o1 : Nat
  o2 : Nat
  o3 : Nat
  o4 : Nat
  port : Nat
  deriving DecidableEq, Repr

/-- Decimal digit value of a character, none for non-digits. -/
def decDigit (c : Char) : Option Nat :=
  if '0' ≤ c ∧ c ≤ '9' then some (c.toNat - Char.toNat '0') else none

/-- Character of a decimal digit value (values 0..9). -/
def digitToChar (n : Nat) : Char :=
  Char.ofNat (Char.toNat '0' + min n 9)

/-- Parse an unsigned decimal numeral, digit by digit. -/
def parseNatAux : List Char → Nat → Option Nat
  | [], acc => some acc
  | c :: rest, acc =>
      match decDigit c with
      | some d => parseNatAux rest (acc * 10 + d)
      | none => none

/-- Parse a nonempty unsigned decimal numeral. -/
def parseNat (l : List Char) : Option Nat :=
  match l with
  | [] => none
  | _ => parseNatAux l 0

/-- Split a character list on a separator character; always returns at least
one (possibly empty) group. -/
def splitOnChar (sep : Char) : List Char → List (List Char)
  | [] => [[]]
  | c :: rest =>
      match splitOnChar sep rest with
      | [] => if c = sep then [[], []] else [[c]]
      | g :: gs => if c = sep then [] :: g :: gs else (c :: g) :: gs

/-- Parse one IPv4 octet: a decimal numeral with value at most 255. -/
def parseOctet (l : List Char) : Option Nat :=
  match parseNat l with
  | some n => if n ≤ 255 then some n else none
  | none => none

/-- Render a positive numeral recursively, with fuel bounding the digit
count so the definition is structural. -/
def renderNatAux : Nat → Nat → List Char
  | 0, _ => []
  | fuel + 1, n =>
      if n < 10 then [digitToChar n]
      else renderNatAux fuel (n / 10) ++ [digitToChar (n % 10)]

/-- Render an unsigned decimal numeral. -/
def renderNat (n : Nat) : List Char :=
  renderNatAux (n + 1) n

/-- Modelled from the spec: SocketAddress construction from text
(SocketAddress sources absent from src/).  The accepted format for IPv4 is
`host:port` with a dotted-quad host; unparsable input fails with
AddressParseError.  (The bracketed IPv6 form is outside the inputs the
claims exercise and parses as a failure here.) -/
def ParseSocketAddress (l : List Char) : Except SocketLibError SocketAddress :=
  match splitOnChar ':' l with
  | [hostPart, portPart] =>
      (match splitOnChar '.' hostPart with
       | [a, b, c, d] =>
           (match parseOctet a, parseOctet b, parseOctet c, parseOctet d,
                  parseNat portPart with
            | some x1, some x2, some x3, some x4, some p =>
                if p < 65536 then Except.ok ⟨x1, x2, x3, x4, p⟩
                else Except.error SocketLibError.AddressParseError
            | _, _, _, _, _ => Except.error SocketLibError.AddressParseError)
       | _ => Except.error SocketLibError.AddressParseError)
  | _ => Except.error SocketLibError.AddressParseError

/-- Modelled from the spec: SocketAddress rendered back to text in the same
`host:port` dotted-quad format. -/
def RenderSocketAddress (a : SocketAddress) : List Char :=
  renderNat a.o1 ++ '.' :: renderNat a.o2 ++ '.' :: renderNat a.o3 ++
    '.' :: renderNat a.o4 ++ ':' :: renderNat a.port

/-! ## ListenSocket and the accept loop (claims C3, C4, C5)

The ListenSocket class shape is src/Include/YBaseLib/Sockets/Generic/
ListenSocket.h: `uint32 m_numConnectionsAccepted` (line 31),
`uint32 GetConnectionsAccepted() const { return m_numConnectionsAccepted; }`
(line 19), and the private overrides OnReadEvent/OnWriteEvent/Close
(lines 21-25).  The bodies live in a translation unit absent from src/, so
the loop behaviour is modelled from spec section 4.3; the counter width
(32-bit unsigned, hence arithmetic modulo 2^32) is fixed by the header. -/

/-- Outcome of one OS accept() attempt, as classified by spec sections 4.3
and 7: a new descriptor with the peer's address, would-block (queue
drained), a transient error, or a fatal error. -/
inductive AcceptOutcome where
  | success (fd : Nat) (peer : SocketAddress)
  | wouldBlock
  | transientError
  | fatalError
  deriving DecidableEq, Repr

/-- The observable state of a ListenSocket together with its multiplexer:
the lifecycle state, the accepted-connection counter (a uint32 field in the
header, stored modulo 2^32), the multiplexer registry of stream-socket ids,
and the trace of factory invocations (descriptor, peer address). -/
structure ListenSocketState where
  sockState : SockState
  m_numConnectionsAccepted : Nat
  registry : List Nat
  factoryCalls : List (Nat × SocketAddress)
  deriving DecidableEq, Repr

/-- GetConnectionsAccepted returns the counter field
(src/Include/YBaseLib/Sockets/Generic/ListenSocket.h line 19). -/
def GetConnectionsAccepted (st : ListenSocketState) : Nat :=
  st.m_numConnectionsAccepted

/-- Modelled from the spec: ListenSocket::OnReadEvent (body absent from
src/).  The pending accept outcomes are consumed in order: each success
invokes the factory callback with the descriptor and peer address,
registers the returned stream socket into the same multiplexer and
increments the uint32 counter (modulo 2^32 per the header's field type);
would-block ends the loop; a transient error ends the loop for this
iteration without closing the listen socket; a fatal error transitions the
listen socket to Closing. -/
def OnReadEvent (factory : Nat → SocketAddress → Nat) :
    List AcceptOutcome → ListenSocketState → ListenSocketState
  | [], st => st
  | AcceptOutcome.success fd peer :: rest, st =>
      OnReadEvent factory rest
        { st with
            m_numConnectionsAccepted := (st.m_numConnectionsAccepted + 1) % 2 ^ 32
            registry := st.registry ++ [factory fd peer]
            factoryCalls := st.factoryCalls ++ [(fd, peer)] }
  | AcceptOutcome.wouldBlock :: _, st => st
  | AcceptOutcome.transientError :: _, st => st
  | AcceptOutcome.fatalError :: _, st =>
      { st with sockState := SockState.closing }

/-- Modelled from the spec: ListenSocket::OnWriteEvent is a no-op for a
listening socket (spec section 4.3; body absent from src/). -/
def OnWriteEvent (st : ListenSocketState) : ListenSocketState :=
  st

/-- Modelled from the spec: ListenSocket::Close (body absent from src/):
the first call moves an open listen socket to Closing; it does not touch
the accepted-connection counter. -/
def CloseListenSocket (st : ListenSocketState) : ListenSocketState :=
  if st.sockState = SockState.open then { st with sockState := SockState.closing }
  else st

/-- A freshly created listen socket: open, zero accepted connections,
nothing registered, no factory calls yet. -/
def freshListenSocket : ListenSocketState :=
  { sockState := SockState.open
    m_numConnectionsAccepted := 0
    registry := []
    factoryCalls := [] }

/-- A run of n immediately acceptable connections, all from the same peer,
followed by the OS reporting would-block. -/
def acceptRun (n : Nat) (peer : SocketAddress) : List AcceptOutcome :=
  List.replicate n (AcceptOutcome.success 0 peer) ++ [AcceptOutcome.wouldBlock]

/-! ## SocketMultiplexer Poll (claim C7)

SocketMultiplexer.h/.cpp are absent from src/; the Poll timeout contract is
modelled from spec sections 4.4 and 5.  The environment is a readiness
schedule: for each elapsed time, the list of descriptors that are ready. -/

/-- Result of one Poll call: how long the call blocked and which ready
descriptors had callbacks dispatched. -/
structure PollOutcome where
  elapsed : Nat
  dispatched : List Nat
  deriving DecidableEq, Repr

/-- First instant, scanning start, start+1, ... for fuel steps, at which the
readiness schedule reports a nonempty ready set. -/
def firstReadyAux (env : Nat → List Nat) : Nat → Nat → Option Nat
  | _, 0 => none
  | start, fuel + 1 =>
      if env start ≠ [] then some start
      else firstReadyAux env (start + 1) fuel

/-- Modelled from the spec: SocketMultiplexer::Poll with a finite timeout
(sources absent from src/).  The call returns as soon as some registered
descriptor is ready (instants 0, 1, ..., timeout are inspected in order),
dispatching the ready set at that instant; if nothing becomes ready by the
timeout it returns at the timeout with zero dispatched callbacks.  A
timeout of zero is a non-blocking poll which only looks at what is ready
right now. -/
def Poll (env : Nat → List Nat) (timeout : Nat) : PollOutcome :=
  match firstReadyAux env 0 (timeout + 1) with
  | some r => ⟨r, env r⟩
  | none => ⟨timeout, []⟩

/-- Modelled from the spec: Poll with the infinite timeout blocks until at
least one event, returning at the first instant with a nonempty ready set.
The hypothesis that some instant is ready reflects that an infinite-timeout
poll with no events never returns. -/
def PollInfinite (env : Nat → List Nat) (h : ∃ t, env t ≠ []) : PollOutcome :=
  ⟨Nat.find h, env (Nat.find h)⟩

/-! ## String copy-on-write model (claims C9, C10)

StringData's fields are src/Include/String.h lines 17-35; the inline
accessors GetLength/GetCharArray/GetWriteableCharArray/GetWritableBufferSize
are lines 161-197.  Assign(const String&) and EnsureOwnWritableCopy are
declared (lines 53, 60) with bodies in String.cpp, absent from src/; their
behaviour is modelled from the header's own doc comments (the
ReferenceCount == -1 noncopyable sentinel, lines 31-34, and the uniqueness
comment on EnsureOwnWritableCopy, line 59).  Aliasing is made explicit by a
heap of StringData cells addressed by index; a String object is its
m_pStringData pointer (line 234). -/

/-- StringData from src/Include/String.h lines 17-35: buffer contents,
string length, buffer size, read-only flag, and the reference count whose
value -1 marks the data noncopyable. -/
structure StringData where
  pBuffer : List Char
  StringLength : Nat
  BufferSize : Nat
  ReadOnly : Bool
  ReferenceCount : Int
  deriving DecidableEq, Repr, Inhabited

/-- The heap of StringData cells; a cell's address is its index. -/
structure StringHeap where
  cells : List StringData
  deriving DecidableEq, Repr

/-- A String object: its m_pStringData pointer, as a heap address. -/
structure Str where
  m_pStringData : Nat
  deriving DecidableEq, Repr

/-- Dereference a String object's data pointer. -/
def readData (h : StringHeap) (s : Str) : StringData :=
  h.cells.getD s.m_pStringData default

/-- GetCharArray returns the buffer pointer; observably, the buffer contents
(src/Include/String.h line 194). -/
def GetCharArray (h : StringHeap) (s : Str) : List Char :=
  (readData h s).pBuffer

/-- GetLength returns the StringLength field (src/Include/String.h
line 161). -/
def GetLength (h : StringHeap) (s : Str) : Nat :=
  (readData h s).StringLength

/-- An external write through a writable character pointer of string s:
the pointed-to cell's buffer is replaced, nothing else changes. -/
def writeBuffer (h : StringHeap) (s : Str) (buf : List Char) : StringHeap :=
  ⟨h.cells.set s.m_pStringData { readData h s with pBuffer := buf }⟩

/-- StaticString's constructor body, inline in src/Include/String.h lines
244-251: the data points at the given text, read-only, with the
ReferenceCount set to -1. -/
def StaticStringInit (Text : List Char) : StringData :=
  { pBuffer := Text
    StringLength := Text.length
    BufferSize := Text.length + 1
    ReadOnly := true
    ReferenceCount := -1 }

/-- StackString's InitStackStringData body, inline in src/Include/String.h
lines 312-325: an empty writable stack buffer of capacity L+1 with the
ReferenceCount set to -1. -/
def StackStringInit (L : Nat) : StringData :=
  { pBuffer := []
    StringLength := 0
    BufferSize := L + 1
    ReadOnly := false
    ReferenceCount := -1 }

/-- Modelled from the spec: String::Assign(const String&) and the
copy constructor String(const String&) (String.cpp absent from src/).  Per
the ReferenceCount doc comment (src/Include/String.h lines 31-34), a source
whose data has ReferenceCount == -1 is noncopyable and any copy always
creates its own StringData holding its own copy of the characters; any
other source's data is shared copy-on-write, incrementing the reference
count.  Returns the updated heap and the destination's data pointer. -/
def Assign (h : StringHeap) (src : Str) : StringHeap × Str :=
  let sd := readData h src
  if sd.ReferenceCount = -1 then
    (⟨h.cells ++ [{ pBuffer := sd.pBuffer
                    StringLength := sd.StringLength
                    BufferSize := sd.StringLength + 1
                    ReadOnly := false
                    ReferenceCount := 1 }]⟩,
     ⟨h.cells.length⟩)
  else
    (⟨h.cells.set src.m_pStringData { sd with ReferenceCount := sd.ReferenceCount + 1 }⟩,
     ⟨src.m_pStringData⟩)

/-- Modelled from the spec: String::EnsureOwnWritableCopy (String.cpp absent
from src/; declared with the comment "Ensures that the string has its own
unique copy of the data", src/Include/String.h lines 59-60).  If the data is
already uniquely owned and writable nothing happens; otherwise a fresh
writable cell holding a copy of the characters is allocated for this string
and the shared cell's reference count is released (the -1 sentinel cell
belongs to its stack or static owner and keeps its sentinel). -/
def EnsureOwnWritableCopy (h : StringHeap) (s : Str) : StringHeap × Str :=
  let sd := readData h s
  if sd.ReferenceCount = 1 ∧ sd.ReadOnly = false then (h, s)
  else
    (⟨(h.cells.set s.m_pStringData
         { sd with ReferenceCount := if sd.ReferenceCount > 0 then sd.ReferenceCount - 1
                                     else sd.ReferenceCount }) ++
       [{ pBuffer := sd.pBuffer
          StringLength := sd.StringLength
          BufferSize := max sd.BufferSize (sd.StringLength + 1)
          ReadOnly := false
          ReferenceCount := 1 }]⟩,
     ⟨h.cells.length⟩)

/-- GetWriteableCharArray, inline in src/Include/String.h line 197: calls
EnsureOwnWritableCopy and returns the (now uniquely owned) buffer pointer.
The returned Str is the pointer through which the caller may write. -/
def GetWriteableCharArray (h : StringHeap) (s : Str) : StringHeap × Str :=
  EnsureOwnWritableCopy h s

/-- GetWritableBufferSize, inline in src/Include/String.h line 166: calls
EnsureOwnWritableCopy and returns the BufferSize field. -/
def GetWritableBufferSize (h : StringHeap) (s : Str) : (StringHeap × Str) × Nat :=
  let r := EnsureOwnWritableCopy h s
  (r, (readData r.1 r.2).BufferSize)

/-! ## Barrier (claim C6)

The Barrier class shape is src/Include/YBaseLib/Windows/WindowsBarrier.h
lines 9-26: a thread count, atomic entered and exited thread counts, and two
OS semaphores (enter and exit gates).  Wait()'s body is in a translation
unit absent from src/, so its two-phase gate protocol is modelled from spec
sections 3 and 5 as a small-step transition system: each Wait() call is the
sequence arrive (increment m_enteredThreadCount, the cohort-completing
thread stocking the enter gate), pass the enter gate, depart (increment
m_exitedThreadCount, the last thread stocking the exit gate and resetting
the entered count), pass the exit gate.  Semaphores are modelled by their
token counts.  Ghost fields count, per thread, the Wait() calls begun and
completed. -/

/-- Position of a thread inside the two-phase Wait() protocol. -/
inductive BarrierPc where
  | outside
  | atEnterGate
  | inside
  | atExitGate
  deriving DecidableEq, Repr

/-- State of the barrier and its client threads.  Field names follow
src/Include/YBaseLib/Windows/WindowsBarrier.h; the two HANDLE semaphores are
modelled by their token counts.  arrived and completed are ghost
observation counters per thread index. -/
structure BarrierState where
  m_enteredThreadCount : Nat
  m_exitedThreadCount : Nat
  m_hEnterSemaphore : Nat
  m_hExitSemaphore : Nat
  pc : Nat → BarrierPc
  arrived : Nat → Nat
  completed : Nat → Nat

/-- Pointwise update of a thread's program counter. -/
def setPc (f : Nat → BarrierPc) (i : Nat) (q : BarrierPc) : Nat → BarrierPc :=
  fun j => if j = i then q else f j

/-- Increment one thread's ghost counter. -/
def bump (f : Nat → Nat) (i : Nat) : Nat → Nat :=
  fun j => if j = i then f j + 1 else f j

/-- Occurrence count of a program-counter value in a list. -/
def cntP (p : BarrierPc) : List BarrierPc → Nat
  | [] => 0
  | q :: rest => (if q = p then 1 else 0) + cntP p rest

/-- Number of threads among 0..N-1 currently at position p. -/
def cntPc (N : Nat) (f : Nat → BarrierPc) (p : BarrierPc) : Nat :=
  cntP p ((List.range N).map f)

/-- The barrier as just constructed (Barrier(threadCount): counters zero,
both gates empty) with all client threads outside Wait(). -/
def barrierInit : BarrierState :=
  { m_enteredThreadCount := 0
    m_exitedThreadCount := 0
    m_hEnterSemaphore := 0
    m_hExitSemaphore := 0
    pc := fun _ => BarrierPc.outside
    arrived := fun _ => 0
    completed := fun _ => 0 }

/-- Effect of the first phase of Wait(): the thread increments
m_enteredThreadCount; the thread completing the cohort of N resets
m_exitedThreadCount and releases the enter semaphore with N tokens. -/
def arriveEffect (N : Nat) (s : BarrierState) (i : Nat) : BarrierState :=
  { s with
      m_enteredThreadCount := s.m_enteredThreadCount + 1
      m_exitedThreadCount :=
        if s.m_enteredThreadCount + 1 = N then 0 else s.m_exitedThreadCount
      m_hEnterSemaphore :=
        if s.m_enteredThreadCount + 1 = N then s.m_hEnterSemaphore + N
        else s.m_hEnterSemaphore
      pc := setPc s.pc i BarrierPc.atEnterGate
      arrived := bump s.arrived i }

/-- Effect of passing the enter gate: consume one enter-semaphore token. -/
def passEnterEffect (s : BarrierState) (i : Nat) : BarrierState :=
  { s with
      m_hEnterSemaphore := s.m_hEnterSemaphore - 1
      pc := setPc s.pc i BarrierPc.inside }

/-- Effect of the second phase of Wait(): the thread increments
m_exitedThreadCount; the last thread of the cohort resets
m_enteredThreadCount and releases the exit semaphore with N tokens. -/
def departEffect (N : Nat) (s : BarrierState) (i : Nat) : BarrierState :=
  { s with
      m_exitedThreadCount := s.m_exitedThreadCount + 1
      m_enteredThreadCount :=
        if s.m_exitedThreadCount + 1 = N then 0 else s.m_enteredThreadCount
      m_hExitSemaphore :=
        if s.m_exitedThreadCount + 1 = N then s.m_hExitSemaphore + N
        else s.m_hExitSemaphore
      pc := setPc s.pc i BarrierPc.atExitGate }

/-- Effect of passing the exit gate: consume one exit-semaphore token;
this Wait() call returns. -/
def passExitEffect (s : BarrierState) (i : Nat) : BarrierState :=
  { s with
      m_hExitSemaphore := s.m_hExitSemaphore - 1
      pc := setPc s.pc i BarrierPc.outside
      completed := bump s.completed i }

/-- Modelled from the spec: one atomic step of some thread i < N inside
Barrier::Wait() (body absent from src/), for a barrier configured with
threadCount = N.  A thread blocked at a gate can only proceed when the
corresponding semaphore holds a token. -/
inductive BarrierStep (N : Nat) (s : BarrierState) : BarrierState → Prop where
  | arrive (i : Nat) (hi : i < N) (hpc : s.pc i = BarrierPc.outside) :
      BarrierStep N s (arriveEffect N s i)
  | passEnter (i : Nat) (hi : i < N) (hpc : s.pc i = BarrierPc.atEnterGate)
      (hsem : 0 < s.m_hEnterSemaphore) :
      BarrierStep N s (passEnterEffect s i)
  | depart (i : Nat) (hi : i < N) (hpc : s.pc i = BarrierPc.inside) :
      BarrierStep N s (departEffect N s i)
  | passExit (i : Nat) (hi : i < N) (hpc : s.pc i = BarrierPc.atExitGate)
      (hsem : 0 < s.m_hExitSemaphore) :
      BarrierStep N s (passExitEffect s i)

/-- States reachable from the freshly constructed barrier by interleaved
Wait() steps of the N client threads. -/
def BarrierReachable (N : Nat) (s : BarrierState) : Prop :=
  Relation.ReflTransGen (fun a b => BarrierStep N a b) barrierInit s

/-- The inductive invariant of the two-phase gate.  The system is either
filling (threads of the next generation arriving while stragglers of the
previous generation drain the exit gate) or draining the enter gate and
collecting departures, with the counters and semaphore tokens tied to the
thread positions, and every thread's ghost counters tied to the current
generation g. -/
def BarrierInv (N : Nat) (s : BarrierState) : Prop :=
  (∃ g : Nat,
      s.m_hEnterSemaphore = 0 ∧
      s.m_enteredThreadCount = cntPc N s.pc BarrierPc.atEnterGate ∧
      cntPc N s.pc BarrierPc.inside = 0 ∧
      s.m_hExitSemaphore = cntPc N s.pc BarrierPc.atExitGate ∧
      (s.m_exitedThreadCount = N ∨
        (s.m_exitedThreadCount = 0 ∧ cntPc N s.pc BarrierPc.atExitGate = 0)) ∧
      ∀ i, i < N →
        (s.pc i = BarrierPc.outside ∧ s.arrived i = g ∧ s.completed i = g) ∨
        (s.pc i = BarrierPc.atEnterGate ∧ s.arrived i = g + 1 ∧ s.completed i = g) ∨
        (s.pc i = BarrierPc.atExitGate ∧ s.arrived i = g ∧ s.completed i + 1 = g)) ∨
  (∃ g : Nat,
      s.m_enteredThreadCount = N ∧
      s.m_hEnterSemaphore = cntPc N s.pc BarrierPc.atEnterGate ∧
      s.m_exitedThreadCount = cntPc N s.pc BarrierPc.atExitGate ∧
      s.m_hExitSemaphore = 0 ∧
      cntPc N s.pc BarrierPc.outside = 0 ∧
      ∀ i, i < N →
        s.arrived i = g ∧ s.completed i + 1 = g ∧ s.pc i ≠ BarrierPc.outside)

/-! Counting lemmas for the barrier invariant. -/

theorem cntP_le_length (p : BarrierPc) (l : List BarrierPc) : cntP p l ≤ l.length := by
  induction l with
  | nil => simp [cntP]
  | cons q rest ih =>
      simp only [cntP, List.length_cons]
      split <;> omega

theorem cntPc_le (N : Nat) (f : Nat → BarrierPc) (p : BarrierPc) : cntPc N f p ≤ N := by
  have h := cntP_le_length p ((List.range N).map f)
  simpa [cntPc] using h

theorem cntP_sum (l : List BarrierPc) :
    cntP BarrierPc.outside l + cntP BarrierPc.atEnterGate l +
      cntP BarrierPc.inside l + cntP BarrierPc.atExitGate l = l.length := by
  induction l with
  | nil => simp [cntP]
  | cons q rest ih => cases q <;> simp [cntP] <;> omega

theorem cntPc_sum (N : Nat) (f : Nat → BarrierPc) :
    cntPc N f BarrierPc.outside + cntPc N f BarrierPc.atEnterGate +
      cntPc N f BarrierPc.inside + cntPc N f BarrierPc.atExitGate = N := by
  have h := cntP_sum ((List.range N).map f)
  simpa [cntPc] using h

theorem cntP_pos_of_mem {p : BarrierPc} {l : List BarrierPc} (h : p ∈ l) :
    0 < cntP p l := by
  induction l with
  | nil => simp at h
  | cons q rest ih =>
      simp only [cntP]
      rcases List.mem_cons.mp h with h1 | h2
      · rw [if_pos h1.symm]; omega
      · have := ih h2; split <;> omega

theorem cntPc_pos {N : Nat} {f : Nat → BarrierPc} {i : Nat} {p : BarrierPc}
    (hi : i < N) (hp : f i = p) : 0 < cntPc N f p :=
  cntP_pos_of_mem (List.mem_map.mpr ⟨i, List.mem_range.mpr hi, hp⟩)

theorem cntPc_zero_iff {N : Nat} {f : Nat → BarrierPc} {i : Nat} {p : BarrierPc}
    (hi : i < N) (hz : cntPc N f p = 0) : f i ≠ p := by
  intro hp
  have := cntPc_pos hi hp
  omega

theorem cntP_eq_zero {p : BarrierPc} {l : List BarrierPc} (h : p ∉ l) :
    cntP p l = 0 := by
  induction l with
  | nil => rfl
  | cons q rest ih =>
      simp only [cntP]
      have hq : q ≠ p := fun hqp => h (hqp ▸ List.mem_cons_self q rest)
      rw [if_neg hq, ih (fun hm => h (List.mem_cons_of_mem q hm))]

theorem cntPc_eq_zero {N : Nat} {f : Nat → BarrierPc} {p : BarrierPc}
    (h : ∀ k, k < N → f k ≠ p) : cntPc N f p = 0 := by
  refine cntP_eq_zero ?_
  intro hmem
  rcases List.mem_map.mp hmem with ⟨k, hk, hfk⟩
  exact h k (List.mem_range.mp hk) hfk

theorem cntP_set (l : List BarrierPc) (i : Nat) (q r : BarrierPc) (h : i < l.length) :
    cntP r (l.set i q) + (if l.get ⟨i, h⟩ = r then 1 else 0)
      = cntP r l + (if q = r then 1 else 0) := by
  induction l generalizing i with
  | nil => simp at h
  | cons a rest ih =>
      cases i with
      | zero => simp only [List.set, cntP, List.get]; omega
      | succ n =>
          have hn : n < rest.length := by simpa using h
          have := ih n hn
          simp only [List.set, cntP, List.get]
          omega

theorem map_range_setPc (N i : Nat) (hi : i < N) (f : Nat → BarrierPc) (q : BarrierPc) :
    (List.range N).map (setPc f i q) = ((List.range N).map f).set i q := by
  apply List.ext_getElem
  · simp
  · intro n h1 h2
    have hn : n < N := by simpa using h1
    by_cases hni : n = i
    · subst hni
      simp [setPc, List.getElem_set, hn]
    · simp [setPc, List.getElem_set, hni, Ne.symm hni, hn]

theorem cntPc_setPc (N : Nat) (f : Nat → BarrierPc) (i : Nat) (hi : i < N)
    (q r : BarrierPc) :
    cntPc N (setPc f i q) r + (if f i = r then 1 else 0)
      = cntPc N f r + (if q = r then 1 else 0) := by
  have h : i < ((List.range N).map f).length := by simpa using hi
  have hset := cntP_set ((List.range N).map f) i q r h
  have hget : ((List.range N).map f).get ⟨i, h⟩ = f i := by simp
  rw [hget] at hset
  simpa [cntPc, map_range_setPc N i hi] using hset

theorem cntPc_setPc_self {N : Nat} {f : Nat → BarrierPc} {i : Nat} (hi : i < N)
    {q r : BarrierPc} (hfi : f i = r) (hq : q ≠ r) :
    cntPc N (setPc f i q) r + 1 = cntPc N f r := by
  have h := cntPc_setPc N f i hi q r
  rw [if_pos hfi, if_neg hq] at h
  omega

theorem cntPc_setPc_new {N : Nat} {f : Nat → BarrierPc} {i : Nat} (hi : i < N)
    {q r : BarrierPc} (hfi : f i ≠ r) (hq : q = r) :
    cntPc N (setPc f i q) r = cntPc N f r + 1 := by
  have h := cntPc_setPc N f i hi q r
  rw [if_neg hfi, if_pos hq] at h
  omega

theorem cntPc_setPc_other {N : Nat} {f : Nat → BarrierPc} {i : Nat} (hi : i < N)
    {q r : BarrierPc} (hfi : f i ≠ r) (hq : q ≠ r) :
    cntPc N (setPc f i q) r = cntPc N f r := by
  have h := cntPc_setPc N f i hi q r
  rw [if_neg hfi, if_neg hq] at h
  omega

theorem cntPc_two {N : Nat} {f : Nat → BarrierPc} {i j : Nat} {p : BarrierPc}
    (hij : i ≠ j) (hi : i < N) (hj : j < N) (hpi : f i = p) (hpj : f j = p) :
    2 ≤ cntPc N f p := by
  have hq : ∃ q : BarrierPc, q ≠ p := by
    cases p
    · exact ⟨BarrierPc.inside, by simp⟩
    · exact ⟨BarrierPc.outside, by simp⟩
    · exact ⟨BarrierPc.outside, by simp⟩
    · exact ⟨BarrierPc.outside, by simp⟩
  rcases hq with ⟨q, hqp⟩
  have h1 := cntPc_setPc_self hi hpi hqp
  have h2 : setPc f i q j = p := by
    simp [setPc, Ne.symm hij, hpj]
  have h3 := cntPc_pos hj h2
  omega

theorem barrierInv_init (N : Nat) : BarrierInv N barrierInit := by
  refine Or.inl ⟨0, rfl, ?_, ?_, ?_, Or.inr ⟨rfl, ?_⟩, ?_⟩
  · exact (cntPc_eq_zero (by intro k hk; simp [barrierInit])).symm
  · exact cntPc_eq_zero (by intro k hk; simp [barrierInit])
  · exact (cntPc_eq_zero (by intro k hk; simp [barrierInit])).symm
  · exact cntPc_eq_zero (by intro k hk; simp [barrierInit])
  · intro i _
    exact Or.inl ⟨rfl, rfl, rfl⟩

theorem barrierInv_step {N : Nat} {s s2 : BarrierState}
    (hstep : BarrierStep N s s2) (hinv : BarrierInv N s) : BarrierInv N s2 := by
  cases hstep with
  | arrive i hi hpc =>
      rcases hinv with ⟨g, hsem0, hent, hc2, hxsem, hxbr, hthread⟩ |
        ⟨g, _, _, _, _, hc0, _⟩
      case arrive.inr.intro.intro.intro.intro.intro.intro =>
        exact absurd (cntPc_pos hi hpc) (by omega)
      · have hO := cntPc_setPc_self hi hpc (show BarrierPc.atEnterGate ≠ BarrierPc.outside by decide)
        have hpcE : s.pc i ≠ BarrierPc.atEnterGate := by rw [hpc]; decide
        have hpcI : s.pc i ≠ BarrierPc.inside := by rw [hpc]; decide
        have hpcX : s.pc i ≠ BarrierPc.atExitGate := by rw [hpc]; decide
        have hE := cntPc_setPc_new hi hpcE rfl
        have hI := cntPc_setPc_other hi hpcI
          (show BarrierPc.atEnterGate ≠ BarrierPc.inside by decide)
        have hX := cntPc_setPc_other hi hpcX
          (show BarrierPc.atEnterGate ≠ BarrierPc.atExitGate by decide)
        have hsum := cntPc_sum N s.pc
        have hiO := cntPc_pos hi hpc
        have hthi := hthread i hi
        have hme : s.arrived i = g ∧ s.completed i = g := by
          rcases hthi with ⟨_, ha, hc⟩ | ⟨hpci, _, _⟩ | ⟨hpci, _, _⟩
          · exact ⟨ha, hc⟩
          · rw [hpc] at hpci; cases hpci
          · rw [hpc] at hpci; cases hpci
        by_cases hN : s.m_enteredThreadCount + 1 = N
        · have hcX0 : cntPc N s.pc BarrierPc.atExitGate = 0 := by omega
          have hcO1 : cntPc N s.pc BarrierPc.outside = 1 := by omega
          refine Or.inr ⟨g + 1, ?_, ?_, ?_, ?_, ?_, ?_⟩
          · simpa [arriveEffect] using hN
          · simp only [arriveEffect, if_pos hN]
            omega
          · simp only [arriveEffect, if_pos hN]
            omega
          · simp only [arriveEffect]
            omega
          · simp only [arriveEffect]
            omega
          · intro j hj
            simp only [arriveEffect]
            by_cases hji : j = i
            · subst hji
              refine ⟨by simp [bump, hme.1], by omega, by simp [setPc]⟩
            · rcases hthread j hj with ⟨hpcj, _, _⟩ | ⟨hpcj, haj, hcj⟩ | ⟨hpcj, _, _⟩
              · exact absurd (cntPc_two (Ne.symm hji) hi hj hpc hpcj) (by omega)
              · refine ⟨by simp [bump, hji, haj], by omega, ?_⟩
                simp [setPc, hji, hpcj]
              · exact absurd (cntPc_pos hj hpcj) (by omega)
        · refine Or.inl ⟨g, ?_, ?_, ?_, ?_, ?_, ?_⟩
          · simpa [arriveEffect, if_neg hN] using hsem0
          · simp only [arriveEffect]
            omega
          · simpa [arriveEffect] using hI.trans hc2
          · simp only [arriveEffect, if_neg hN]
            omega
          · simp only [arriveEffect, if_neg hN]
            rcases hxbr with h | ⟨h1, h2⟩
            · exact Or.inl h
            · exact Or.inr ⟨h1, by omega⟩
          · intro j hj
            simp only [arriveEffect]
            by_cases hji : j = i
            · subst hji
              refine Or.inr (Or.inl ⟨by simp [setPc], by simp [bump, hme.1], ?_⟩)
              simpa [bump] using hme.2
            · have hpcj : setPc s.pc i BarrierPc.atEnterGate j = s.pc j := by
                simp [setPc, hji]
              have haj : bump s.arrived i j = s.arrived j := by simp [bump, hji]
              rcases hthread j hj with ⟨h1, h2, h3⟩ | ⟨h1, h2, h3⟩ | ⟨h1, h2, h3⟩
              · exact Or.inl ⟨by rw [hpcj]; exact h1, by rw [haj]; exact h2, h3⟩
              · exact Or.inr (Or.inl ⟨by rw [hpcj]; exact h1, by rw [haj]; exact h2, h3⟩)
              · exact Or.inr (Or.inr ⟨by rw [hpcj]; exact h1, by rw [haj]; exact h2, h3⟩)
  | passEnter i hi hpc hsem =>
      rcases hinv with ⟨_, hsem0, _, _, _, _, _⟩ |
        ⟨g, hent, hsemE, hext, hxsem0, hc0, hthread⟩
      · omega
      · have hE := cntPc_setPc_self hi hpc
          (show BarrierPc.inside ≠ BarrierPc.atEnterGate by decide)
        have hpcO : s.pc i ≠ BarrierPc.outside := by rw [hpc]; decide
        have hpcI : s.pc i ≠ BarrierPc.inside := by rw [hpc]; decide
        have hpcX : s.pc i ≠ BarrierPc.atExitGate := by rw [hpc]; decide
        have hO := cntPc_setPc_other hi hpcO
          (show BarrierPc.inside ≠ BarrierPc.outside by decide)
        have hX := cntPc_setPc_other hi hpcX
          (show BarrierPc.inside ≠ BarrierPc.atExitGate by decide)
        refine Or.inr ⟨g, ?_, ?_, ?_, ?_, ?_, ?_⟩
        · simpa [passEnterEffect] using hent
        · simp only [passEnterEffect]
          omega
        · simp only [passEnterEffect]
          omega
        · simpa [passEnterEffect] using hxsem0
        · simp only [passEnterEffect]
          omega
        · intro j hj
          simp only [passEnterEffect]
          have h := hthread j hj
          by_cases hji : j = i
          · subst hji
            exact ⟨h.1, h.2.1, by simp [setPc]⟩
          · have hpcj : setPc s.pc i BarrierPc.inside j = s.pc j := by
              simp [setPc, hji]
            exact ⟨h.1, h.2.1, by rw [hpcj]; exact h.2.2⟩
  | depart i hi hpc =>
      rcases hinv with ⟨_, _, _, hc2, _, _, _⟩ |
        ⟨g, hent, hsemE, hext, hxsem0, hc0, hthread⟩
      · exact absurd (cntPc_pos hi hpc) (by omega)
      · have hI := cntPc_setPc_self hi hpc
          (show BarrierPc.atExitGate ≠ BarrierPc.inside by decide)
        have hpcO : s.pc i ≠ BarrierPc.outside := by rw [hpc]; decide
        have hpcE : s.pc i ≠ BarrierPc.atEnterGate := by rw [hpc]; decide
        have hpcX : s.pc i ≠ BarrierPc.atExitGate := by rw [hpc]; decide
        have hO := cntPc_setPc_other hi hpcO
          (show BarrierPc.atExitGate ≠ BarrierPc.outside by decide)
        have hE := cntPc_setPc_other hi hpcE
          (show BarrierPc.atExitGate ≠ BarrierPc.atEnterGate by decide)
        have hX := cntPc_setPc_new hi hpcX rfl
        have hsum := cntPc_sum N s.pc
        have hiI := cntPc_pos hi hpc
        by_cases hN : s.m_exitedThreadCount + 1 = N
        · have hcE0 : cntPc N s.pc BarrierPc.atEnterGate = 0 := by omega
          have hcI1 : cntPc N s.pc BarrierPc.inside = 1 := by omega
          refine Or.inl ⟨g, ?_, ?_, ?_, ?_, ?_, ?_⟩
          · simp only [departEffect]
            omega
          · simp only [departEffect, if_pos hN]
            omega
          · simp only [departEffect]
            omega
          · simp only [departEffect, if_pos hN]
            omega
          · simp only [departEffect]
            exact Or.inl hN
          · intro j hj
            simp only [departEffect]
            have h := hthread j hj
            refine Or.inr (Or.inr ⟨?_, h.1, h.2.1⟩)
            by_cases hji : j = i
            · subst hji; simp [setPc]
            · have hpcj : setPc s.pc i BarrierPc.atExitGate j = s.pc j := by
                simp [setPc, hji]
              rw [hpcj]
              have hjE : s.pc j ≠ BarrierPc.atEnterGate := cntPc_zero_iff hj hcE0
              have hjI : s.pc j ≠ BarrierPc.inside := by
                intro hins
                have h2 : setPc s.pc i BarrierPc.atExitGate j = BarrierPc.inside := by
                  simpa [setPc, hji] using hins
                have := cntPc_pos hj h2
                omega
              have hjO := h.2.2
              cases hcase : s.pc j
              · exact absurd hcase hjO
              · exact absurd hcase hjE
              · exact absurd hcase hjI
              · rfl
        · refine Or.inr ⟨g, ?_, ?_, ?_, ?_, ?_, ?_⟩
          · simpa [departEffect, if_neg hN] using hent
          · simp only [departEffect]
            omega
          · simp only [departEffect]
            omega
          · simpa [departEffect, if_neg hN] using hxsem0
          · simp only [departEffect]
            omega
          · intro j hj
            simp only [departEffect]
            have h := hthread j hj
            by_cases hji : j = i
            · subst hji
              exact ⟨h.1, h.2.1, by simp [setPc]⟩
            · have hpcj : setPc s.pc i BarrierPc.atExitGate j = s.pc j := by
                simp [setPc, hji]
              exact ⟨h.1, h.2.1, by rw [hpcj]; exact h.2.2⟩
  | passExit i hi hpc hsem =>
      rcases hinv with ⟨g, hsem0, hent, hc2, hxsem, hxbr, hthread⟩ |
        ⟨_, _, _, _, hxsem0, _, _⟩
      · have hX := cntPc_setPc_self hi hpc
          (show BarrierPc.outside ≠ BarrierPc.atExitGate by decide)
        have hpcO : s.pc i ≠ BarrierPc.outside := by rw [hpc]; decide
        have hpcE : s.pc i ≠ BarrierPc.atEnterGate := by rw [hpc]; decide
        have hpcI : s.pc i ≠ BarrierPc.inside := by rw [hpc]; decide
        have hO := cntPc_setPc_new hi hpcO rfl
        have hE := cntPc_setPc_other hi hpcE
          (show BarrierPc.outside ≠ BarrierPc.atEnterGate by decide)
        have hI := cntPc_setPc_other hi hpcI
          (show BarrierPc.outside ≠ BarrierPc.inside by decide)
        have hxN : s.m_exitedThreadCount = N := by
          rcases hxbr with h | ⟨_, h2⟩
          · exact h
          · omega
        have hme : s.arrived i = g ∧ s.completed i + 1 = g := by
          rcases hthread i hi with ⟨hpci, _, _⟩ | ⟨hpci, _, _⟩ | ⟨_, ha, hc⟩
          · rw [hpc] at hpci; cases hpci
          · rw [hpc] at hpci; cases hpci
          · exact ⟨ha, hc⟩
        refine Or.inl ⟨g, ?_, ?_, ?_, ?_, ?_, ?_⟩
        · simpa [passExitEffect] using hsem0
        · simp only [passExitEffect]
          omega
        · simp only [passExitEffect]
          omega
        · simp only [passExitEffect]
          omega
        · simp only [passExitEffect]
          exact Or.inl hxN
        · intro j hj
          simp only [passExitEffect]
          by_cases hji : j = i
          · subst hji
            refine Or.inl ⟨by simp [setPc], hme.1, ?_⟩
            simpa [bump] using hme.2
          · have hpcj : setPc s.pc i BarrierPc.outside j = s.pc j := by
              simp [setPc, hji]
            have hcj : bump s.completed i j = s.completed j := by simp [bump, hji]
            rcases hthread j hj with ⟨h1, h2, h3⟩ | ⟨h1, h2, h3⟩ | ⟨h1, h2, h3⟩
            · exact Or.inl ⟨by rw [hpcj]; exact h1, h2, by rw [hcj]; exact h3⟩
            · exact Or.inr (Or.inl ⟨by rw [hpcj]; exact h1, h2, by rw [hcj]; exact h3⟩)
            · exact Or.inr (Or.inr ⟨by rw [hpcj]; exact h1, h2, by rw [hcj]; exact h3⟩)
      · omega

theorem barrierInv_reachable {N : Nat} {s : BarrierState}
    (h : BarrierReachable N s) : BarrierInv N s := by
  induction h with
  | refl => exact barrierInv_init N
  | tail _ hbc ih => exact barrierInv_step hbc ih

/-! ## Helper lemmas for the socket claims -/

/-- A socket that is no longer open is left untouched by any further run of
Close() calls, none of which releases the descriptor. -/
theorem closeN_not_open (n : Nat) (s : Socket) (reg : List Nat)
    (h : s.state ≠ SockState.open) : closeN n s reg = ((s, reg), 0) := by
  induction n with
  | zero => rfl
  | succ m ih =>
      have hc : Close s reg = { sock := s, registry := reg, releasedNow := false, errored := false } := by
        rw [Close, if_neg h]
      simp [closeN, hc, ih]

/-- Running the accept loop over a run of successful accepts followed by a
non-success outcome: every accepted pair is recorded, every factory result
is registered, the uint32 counter advances by the run length modulo 2^32,
and the socket state changes only on a fatal stopper. -/
theorem OnReadEvent_run (factory : Nat → SocketAddress → Nat)
    (pairs : List (Nat × SocketAddress)) (stopper : AcceptOutcome)
    (tail : List AcceptOutcome) (st : ListenSocketState)
    (hstop : ∀ fd peer, stopper ≠ AcceptOutcome.success fd peer)
    (hnum : st.m_numConnectionsAccepted < 2 ^ 32) :
    OnReadEvent factory
        (pairs.map (fun p => AcceptOutcome.success p.1 p.2) ++ stopper :: tail) st =
      { sockState := if stopper = AcceptOutcome.fatalError then SockState.closing
                     else st.sockState
        m_numConnectionsAccepted := (st.m_numConnectionsAccepted + pairs.length) % 2 ^ 32
        registry := st.registry ++ pairs.map (fun p => factory p.1 p.2)
        factoryCalls := st.factoryCalls ++ pairs } := by
  induction pairs generalizing st with
  | nil =>
      cases stopper with
      | success fd peer => exact absurd rfl (hstop fd peer)
      | wouldBlock =>
          rcases st with ⟨ss, num, regs, fc⟩
          have hnum2 : num < 2 ^ 32 := hnum
          simp only [List.map_nil, List.nil_append, OnReadEvent, List.length_nil,
            List.append_nil, ListenSocketState.mk.injEq]
          refine ⟨by simp, by omega, by simp, by simp⟩
      | transientError =>
          rcases st with ⟨ss, num, regs, fc⟩
          have hnum2 : num < 2 ^ 32 := hnum
          simp only [List.map_nil, List.nil_append, OnReadEvent, List.length_nil,
            List.append_nil, ListenSocketState.mk.injEq]
          refine ⟨by simp, by omega, by simp, by simp⟩
      | fatalError =>
          rcases st with ⟨ss, num, regs, fc⟩
          have hnum2 : num < 2 ^ 32 := hnum
          simp only [List.map_nil, List.nil_append, OnReadEvent, List.length_nil,
            List.append_nil, ListenSocketState.mk.injEq]
          refine ⟨by simp, by omega, by simp, by simp⟩
  | cons p rest ih =>
      have hlt : (st.m_numConnectionsAccepted + 1) % 2 ^ 32 < 2 ^ 32 :=
        Nat.mod_lt _ (by norm_num)
      simp only [List.map_cons, List.cons_append, OnReadEvent, List.append_eq]
      rw [ih { st with
          m_numConnectionsAccepted := (st.m_numConnectionsAccepted + 1) % 2 ^ 32
          registry := st.registry ++ [factory p.1 p.2]
          factoryCalls := st.factoryCalls ++ [(p.1, p.2)] } hlt]
      simp only [ListenSocketState.mk.injEq, List.length_cons, List.append_assoc,
        List.singleton_append]
      refine ⟨by simp, by omega, by simp, by simp⟩

/-- Reading another cell is unaffected by set. -/
theorem getD_set_ne (l : List StringData) (i j : Nat) (a : StringData)
    (hij : i ≠ j) : (l.set i a).getD j default = l.getD j default := by
  by_cases hj : j < l.length
  · rw [List.getD_eq_getElem _ _ (by simpa using hj), List.getD_eq_getElem _ _ hj,
      List.getElem_set]
    simp [hij]
  · rw [List.getD_eq_default _ _ (by simpa using Nat.le_of_not_lt hj),
      List.getD_eq_default _ _ (Nat.le_of_not_lt hj)]

/-- Reading the cell just set returns the written value. -/
theorem getD_set_self (l : List StringData) (i : Nat) (a : StringData)
    (hi : i < l.length) : (l.set i a).getD i default = a := by
  rw [List.getD_eq_getElem _ _ (by simpa using hi), List.getElem_set]
  simp

/-- firstReadyAux only reports instants inside the scanned window. -/
theorem firstReadyAux_lt (env : Nat → List Nat) (fuel start r : Nat)
    (h : firstReadyAux env start fuel = some r) : r < start + fuel := by
  induction fuel generalizing start with
  | zero => simp [firstReadyAux] at h
  | succ m ih =>
      rw [firstReadyAux] at h
      by_cases he : env start ≠ []
      · rw [if_pos he] at h
        cases h
        omega
      · rw [if_neg he] at h
        have := ih (start + 1) h
        omega

/-- Reading just past a list extended by one cell returns that cell. -/
theorem getD_append_self (l : List StringData) (a : StringData) :
    (l ++ [a]).getD l.length default = a := by
  rw [List.getD_append_right l [a] default l.length (Nat.le_refl _)]
  simp

/-- firstReadyAux finds nothing when the schedule is empty on the whole
scanned window. -/
theorem firstReadyAux_none (env : Nat → List Nat) (fuel start : Nat)
    (h : ∀ u, start ≤ u → u < start + fuel → env u = []) :
    firstReadyAux env start fuel = none := by
  induction fuel generalizing start with
  | zero => rfl
  | succ m ih =>
      rw [firstReadyAux]
      have h0 : env start = [] := h start (Nat.le_refl _) (by omega)
      rw [if_neg (by simpa using h0)]
      exact ih (start + 1) (fun u hu1 hu2 => h u (by omega) (by omega))

/-- Closed form of a run of k immediately acceptable connections from one
peer followed by would-block. -/
theorem OnReadEvent_acceptRun (factory : Nat → SocketAddress → Nat) (k : Nat)
    (peer : SocketAddress) (st : ListenSocketState)
    (hnum : st.m_numConnectionsAccepted < 2 ^ 32) :
    OnReadEvent factory (acceptRun k peer) st =
      { sockState := st.sockState
        m_numConnectionsAccepted := (st.m_numConnectionsAccepted + k) % 2 ^ 32
        registry := st.registry ++ List.replicate k (factory 0 peer)
        factoryCalls := st.factoryCalls ++ List.replicate k (0, peer) } := by
  have hmap : (List.replicate k ((0 : Nat), peer)).map
        (fun p => AcceptOutcome.success p.1 p.2)
      = List.replicate k (AcceptOutcome.success 0 peer) := by
    rw [List.map_replicate]
  have hrun := OnReadEvent_run factory (List.replicate k (0, peer))
    AcceptOutcome.wouldBlock [] st (by intro fd p hh; cases hh) hnum
  rw [hmap] at hrun
  rw [acceptRun, hrun]
  simp [List.map_replicate]

/-! ## Claim theorems -/

/-- C1: For every socket, any sequence of one or more Close() calls releases
the underlying OS descriptor exactly once: the first Close() releases the
descriptor and deregisters the socket from its owning multiplexer, and every
subsequent Close() is a no-op that leaves the socket's state unchanged and
raises no error. -/
theorem close_releases_descriptor_exactly_once (s : Socket) (reg : List Nat)
    (n : Nat) (hopen : s.state = SockState.open) (hn : 1 ≤ n) :
    (closeN n s reg).2 = 1 ∧
    (closeN n s reg).1 = ((Close s reg).sock, (Close s reg).registry) ∧
    (Close s reg).releasedNow = true ∧
    (Close s reg).sock.fdReleased = true ∧
    (Close s reg).registry = reg.erase s.fd ∧
    (Close s reg).errored = false ∧
    (∀ m, closeN m (Close s reg).sock (Close s reg).registry
        = (((Close s reg).sock, (Close s reg).registry), 0)) ∧
    Close (Close s reg).sock (Close s reg).registry
      = { sock := (Close s reg).sock, registry := (Close s reg).registry,
          releasedNow := false, errored := false } := by
  have hc : Close s reg
      = { sock := { s with state := SockState.closing, fdReleased := true }
          registry := reg.erase s.fd, releasedNow := true, errored := false } := by
    rw [Close, if_pos hopen]
  have hnot : (Close s reg).sock.state ≠ SockState.open := by
    rw [hc]; simp
  obtain ⟨m, rfl⟩ : ∃ m, n = m + 1 := ⟨n - 1, by omega⟩
  have hrest := closeN_not_open m (Close s reg).sock (Close s reg).registry hnot
  have hstep : closeN (m + 1) s reg
      = ((closeN m (Close s reg).sock (Close s reg).registry).1,
         (if (Close s reg).releasedNow then 1 else 0)
           + (closeN m (Close s reg).sock (Close s reg).registry).2) := rfl
  refine ⟨?_, ?_, by rw [hc], by rw [hc], by rw [hc], by rw [hc],
    fun m2 => closeN_not_open m2 _ _ hnot, by rw [Close, if_neg hnot]⟩
  · rw [hstep, hrest, hc]
    rfl
  · rw [hstep, hrest]

/-- C1 witness: two Close() calls on an open socket with descriptor 3 release
it exactly once and end in the same state one Close() reaches. -/
theorem close_releases_descriptor_exactly_once_witness :
    (⟨SockState.open, false, 3⟩ : Socket).state = SockState.open ∧ 1 ≤ 2 ∧
    (closeN 2 ⟨SockState.open, false, 3⟩ [3, 7]).2 = 1 ∧
    (closeN 2 ⟨SockState.open, false, 3⟩ [3, 7]).1
      = ((Close ⟨SockState.open, false, 3⟩ [3, 7]).sock,
         (Close ⟨SockState.open, false, 3⟩ [3, 7]).registry) :=
  ⟨rfl, by norm_num,
    (close_releases_descriptor_exactly_once ⟨SockState.open, false, 3⟩ [3, 7] 2
      rfl (by norm_num)).1,
    (close_releases_descriptor_exactly_once ⟨SockState.open, false, 3⟩ [3, 7] 2
      rfl (by norm_num)).2.1⟩

/-- C2: A descriptor appears at most once in the multiplexer's registry:
RegisterSocket for an already-tracked descriptor fails with
AlreadyRegisteredError, leaving the original registration untouched, and a
successful registration both requires the descriptor to be new and
preserves key uniqueness. -/
theorem registerSocket_unique_descriptors (reg : List (Nat × Nat))
    (fd sockId origId : Nat) (hdup : (fd, origId) ∈ reg) :
    RegisterSocket reg fd sockId
        = Except.error SocketLibError.AlreadyRegisteredError ∧
    (∀ reg2 fd2 sockId2 r, RegisterSocket reg2 fd2 sockId2 = Except.ok r →
      fd2 ∉ reg2.map Prod.fst ∧ r = reg2 ++ [(fd2, sockId2)] ∧
        ((reg2.map Prod.fst).Nodup → (r.map Prod.fst).Nodup)) := by
  constructor
  · rw [RegisterSocket, if_pos (List.mem_map.mpr ⟨(fd, origId), hdup, rfl⟩)]
  · intro reg2 fd2 sockId2 r hok
    rw [RegisterSocket] at hok
    by_cases hmem : fd2 ∈ reg2.map Prod.fst
    · rw [if_pos hmem] at hok
      cases hok
    · rw [if_neg hmem] at hok
      cases hok
      refine ⟨hmem, rfl, fun hnd => ?_⟩
      simp only [List.map_append, List.map_cons, List.map_nil]
      simp [List.nodup_append, hnd, hmem]

/-- C2 witness: registering descriptor 5 twice fails with
AlreadyRegisteredError; registering a new descriptor 6 succeeds and keeps
the key list duplicate-free. -/
theorem registerSocket_unique_descriptors_witness :
    ((5, 100) ∈ [(5, 100)] ∧
      RegisterSocket [(5, 100)] 5 101
        = Except.error SocketLibError.AlreadyRegisteredError) ∧
    RegisterSocket [(5, 100)] 6 102 = Except.ok [(5, 100), (6, 102)] ∧
    (([(5, 100), (6, 102)] : List (Nat × Nat)).map Prod.fst).Nodup :=
  ⟨⟨by decide, (registerSocket_unique_descriptors [(5, 100)] 5 101 100 (by decide)).1⟩,
    rfl, by decide⟩

/-- C3 counterexample: after 2^32 successful accepts — a count representable
in 64 bits — GetConnectionsAccepted returns 0, not 2^32: the uint32 counter
declared in ListenSocket.h line 31 wraps rather than holding a 64-bit-safe
count. -/
theorem getConnectionsAccepted_wraps_at_2_pow_32 :
    2 ^ 32 < 2 ^ 64 ∧
    GetConnectionsAccepted
        (OnReadEvent (fun _ _ => 0) (acceptRun (2 ^ 32) ⟨127, 0, 0, 1, 9000⟩)
          freshListenSocket) = 0 ∧
    (0 : Nat) ≠ 2 ^ 32 := by
  refine ⟨by norm_num, ?_, by norm_num⟩
  rw [GetConnectionsAccepted,
    OnReadEvent_acceptRun (fun _ _ => 0) (2 ^ 32) ⟨127, 0, 0, 1, 9000⟩
      freshListenSocket (by norm_num [freshListenSocket])]
  simp [freshListenSocket]

/-- C3 (amended): the accepted-connection counter is a 32-bit unsigned
counter: GetConnectionsAccepted returns the exact cumulative count for every
sequence of successful accepts whose count is below 2^32, and in general
advances modulo 2^32. -/
theorem getConnectionsAccepted_exact_below_2_pow_32
    (factory : Nat → SocketAddress → Nat) (k : Nat) (peer : SocketAddress)
    (hk : k < 2 ^ 32) :
    GetConnectionsAccepted
        (OnReadEvent factory (acceptRun k peer) freshListenSocket) = k ∧
    ∀ st : ListenSocketState, st.m_numConnectionsAccepted < 2 ^ 32 →
      GetConnectionsAccepted (OnReadEvent factory (acceptRun k peer) st)
        = (GetConnectionsAccepted st + k) % 2 ^ 32 := by
  constructor
  · rw [GetConnectionsAccepted,
      OnReadEvent_acceptRun factory k peer freshListenSocket
        (by norm_num [freshListenSocket])]
    simpa [freshListenSocket] using Nat.mod_eq_of_lt hk
  · intro st hnum
    rw [OnReadEvent_acceptRun factory k peer st hnum]
    simp [GetConnectionsAccepted]

/-- C3 witness: three accepts from a fresh listen socket report exactly 3. -/
theorem getConnectionsAccepted_exact_below_2_pow_32_witness :
    3 < 2 ^ 32 ∧
    GetConnectionsAccepted
        (OnReadEvent (fun _ _ => 0) (acceptRun 3 ⟨127, 0, 0, 1, 9000⟩)
          freshListenSocket) = 3 :=
  ⟨by norm_num,
    (getConnectionsAccepted_exact_below_2_pow_32 (fun _ _ => 0) 3
      ⟨127, 0, 0, 1, 9000⟩ (by norm_num)).1⟩

/-- C4 counterexample: a further successful accept at counter value 2^32 - 1
(a state reached by 2^32 - 1 prior accepts) wraps GetConnectionsAccepted to
0 — a strict decrease across an execution step, refuting monotonicity. -/
theorem getConnectionsAccepted_wrap_decreases :
    GetConnectionsAccepted
        (OnReadEvent (fun _ _ => 0) (acceptRun (2 ^ 32 - 1) ⟨127, 0, 0, 1, 9000⟩)
          freshListenSocket) = 2 ^ 32 - 1 ∧
    GetConnectionsAccepted
        (OnReadEvent (fun _ _ => 0) (acceptRun 1 ⟨127, 0, 0, 1, 9000⟩)
          (OnReadEvent (fun _ _ => 0) (acceptRun (2 ^ 32 - 1) ⟨127, 0, 0, 1, 9000⟩)
            freshListenSocket)) = 0 ∧
    (0 : Nat) < 2 ^ 32 - 1 := by
  have h1 := OnReadEvent_acceptRun (fun _ _ => 0) (2 ^ 32 - 1) ⟨127, 0, 0, 1, 9000⟩
    freshListenSocket (by norm_num [freshListenSocket])
  have hval : (freshListenSocket.m_numConnectionsAccepted + (2 ^ 32 - 1)) % 2 ^ 32
      = 2 ^ 32 - 1 := by
    simp only [freshListenSocket]
    omega
  refine ⟨?_, ?_, by norm_num⟩
  · rw [GetConnectionsAccepted, h1]
    simp [freshListenSocket]
  · rw [GetConnectionsAccepted, h1,
      OnReadEvent_acceptRun (fun _ _ => 0) 1 ⟨127, 0, 0, 1, 9000⟩ _ (by simp; omega)]
    simp only [freshListenSocket]
    omega

/-- C4 (amended): GetConnectionsAccepted advances by exactly one, modulo
2^32 (the field is a uint32), per successful factory-accepted connection of
an OnReadEvent pass; OnWriteEvent and Close never change it; and it is
monotonically non-decreasing across an OnReadEvent pass as long as the
cumulative count stays below 2^32. -/
theorem getConnectionsAccepted_step_behaviour
    (factory : Nat → SocketAddress → Nat) (st : ListenSocketState)
    (pairs : List (Nat × SocketAddress)) (stopper : AcceptOutcome)
    (tail : List AcceptOutcome)
    (hstop : ∀ fd peer, stopper ≠ AcceptOutcome.success fd peer)
    (hnum : st.m_numConnectionsAccepted < 2 ^ 32) :
    GetConnectionsAccepted
        (OnReadEvent factory
          (pairs.map (fun p => AcceptOutcome.success p.1 p.2) ++ stopper :: tail) st)
      = (GetConnectionsAccepted st + pairs.length) % 2 ^ 32 ∧
    GetConnectionsAccepted (OnWriteEvent st) = GetConnectionsAccepted st ∧
    GetConnectionsAccepted (CloseListenSocket st) = GetConnectionsAccepted st ∧
    (GetConnectionsAccepted st + pairs.length < 2 ^ 32 →
      GetConnectionsAccepted st ≤
        GetConnectionsAccepted
          (OnReadEvent factory
            (pairs.map (fun p => AcceptOutcome.success p.1 p.2) ++ stopper :: tail) st)) := by
  have hrun := OnReadEvent_run factory pairs stopper tail st hstop hnum
  refine ⟨?_, rfl, ?_, ?_⟩
  · rw [hrun]
    simp [GetConnectionsAccepted]
  · rw [GetConnectionsAccepted, GetConnectionsAccepted, CloseListenSocket]
    split <;> rfl
  · intro hlt
    rw [hrun]
    simp only [GetConnectionsAccepted] at hlt ⊢
    rw [Nat.mod_eq_of_lt hlt]
    omega

/-- C4 witness: one accept on a fresh socket advances the counter from 0 to
1, write events and Close leave it unchanged, and the step is
non-decreasing. -/
theorem getConnectionsAccepted_step_behaviour_witness :
    (∀ fd peer, AcceptOutcome.wouldBlock ≠ AcceptOutcome.success fd peer) ∧
    freshListenSocket.m_numConnectionsAccepted < 2 ^ 32 ∧
    GetConnectionsAccepted
        (OnReadEvent (fun _ _ => 7)
          ([((9 : Nat), (⟨10, 0, 0, 2, 80⟩ : SocketAddress))].map
            (fun p => AcceptOutcome.success p.1 p.2) ++ AcceptOutcome.wouldBlock :: [])
          freshListenSocket)
      = (GetConnectionsAccepted freshListenSocket + 1) % 2 ^ 32 ∧
    GetConnectionsAccepted (OnWriteEvent freshListenSocket)
      = GetConnectionsAccepted freshListenSocket ∧
    GetConnectionsAccepted (CloseListenSocket freshListenSocket)
      = GetConnectionsAccepted freshListenSocket := by
  refine ⟨(fun _ _ h => nomatch h), by norm_num [freshListenSocket], ?_, ?_, ?_⟩
  · exact (getConnectionsAccepted_step_behaviour (fun _ _ => 7) freshListenSocket
      [(9, ⟨10, 0, 0, 2, 80⟩)] AcceptOutcome.wouldBlock []
      (fun _ _ h => by cases h) (by norm_num [freshListenSocket])).1
  · exact (getConnectionsAccepted_step_behaviour (fun _ _ => 7) freshListenSocket
      [(9, ⟨10, 0, 0, 2, 80⟩)] AcceptOutcome.wouldBlock []
      (fun _ _ h => by cases h) (by norm_num [freshListenSocket])).2.1
  · exact (getConnectionsAccepted_step_behaviour (fun _ _ => 7) freshListenSocket
      [(9, ⟨10, 0, 0, 2, 80⟩)] AcceptOutcome.wouldBlock []
      (fun _ _ h => by cases h) (by norm_num [freshListenSocket])).2.2.1

/-- C5: OnReadEvent accepts pending connections in a loop until the OS
reports would-block, invoking the factory callback once per accepted
descriptor with the peer's SocketAddress and registering each returned
stream socket into the same multiplexer; a transient accept error only
stops the loop for that iteration (later queue contents are not consumed)
without closing the listen socket, while a fatal accept error transitions
the listen socket to Closing. -/
theorem onReadEvent_accept_loop_contract
    (factory : Nat → SocketAddress → Nat) (st : ListenSocketState)
    (pairs : List (Nat × SocketAddress)) (tail : List AcceptOutcome)
    (hopen : st.sockState = SockState.open)
    (hnum : st.m_numConnectionsAccepted < 2 ^ 32) :
    (OnReadEvent factory
        (pairs.map (fun p => AcceptOutcome.success p.1 p.2)
          ++ AcceptOutcome.wouldBlock :: tail) st).factoryCalls
      = st.factoryCalls ++ pairs ∧
    (OnReadEvent factory
        (pairs.map (fun p => AcceptOutcome.success p.1 p.2)
          ++ AcceptOutcome.wouldBlock :: tail) st).registry
      = st.registry ++ pairs.map (fun p => factory p.1 p.2) ∧
    (OnReadEvent factory
        (pairs.map (fun p => AcceptOutcome.success p.1 p.2)
          ++ AcceptOutcome.wouldBlock :: tail) st).sockState = SockState.open ∧
    OnReadEvent factory
        (pairs.map (fun p => AcceptOutcome.success p.1 p.2)
          ++ AcceptOutcome.transientError :: tail) st
      = OnReadEvent factory
          (pairs.map (fun p => AcceptOutcome.success p.1 p.2)
            ++ [AcceptOutcome.transientError]) st ∧
    (OnReadEvent factory
        (pairs.map (fun p => AcceptOutcome.success p.1 p.2)
          ++ AcceptOutcome.transientError :: tail) st).sockState = SockState.open ∧
    (OnReadEvent factory
        (pairs.map (fun p => AcceptOutcome.success p.1 p.2)
          ++ AcceptOutcome.transientError :: tail) st).factoryCalls
      = st.factoryCalls ++ pairs ∧
    (OnReadEvent factory
        (pairs.map (fun p => AcceptOutcome.success p.1 p.2)
          ++ AcceptOutcome.fatalError :: tail) st).sockState = SockState.closing := by
  have hwb := OnReadEvent_run factory pairs AcceptOutcome.wouldBlock tail st
    (fun _ _ h => by cases h) hnum
  have htr := OnReadEvent_run factory pairs AcceptOutcome.transientError tail st
    (fun _ _ h => by cases h) hnum
  have htr0 := OnReadEvent_run factory pairs AcceptOutcome.transientError [] st
    (fun _ _ h => by cases h) hnum
  have hfa := OnReadEvent_run factory pairs AcceptOutcome.fatalError tail st
    (fun _ _ h => by cases h) hnum
  refine ⟨by rw [hwb], by rw [hwb], ?_, by rw [htr, htr0], ?_, by rw [htr], ?_⟩
  · rw [hwb]
    simpa using hopen
  · rw [htr]
    simpa using hopen
  · rw [hfa]
    simp

/-- C5 witness: two pending connections followed by would-block on a fresh
listen socket produce exactly two factory calls and two registrations and
leave the socket open; a transient error leaves it open; a fatal error
moves it to Closing. -/
theorem onReadEvent_accept_loop_contract_witness :
    freshListenSocket.sockState = SockState.open ∧
    freshListenSocket.m_numConnectionsAccepted < 2 ^ 32 ∧
    (OnReadEvent (fun fd _ => fd + 100)
        ([((4 : Nat), (⟨10, 0, 0, 9, 5555⟩ : SocketAddress)), (6, ⟨10, 0, 0, 8, 5556⟩)].map
          (fun p => AcceptOutcome.success p.1 p.2)
          ++ AcceptOutcome.wouldBlock :: [AcceptOutcome.fatalError])
        freshListenSocket).factoryCalls
      = freshListenSocket.factoryCalls ++ [(4, ⟨10, 0, 0, 9, 5555⟩), (6, ⟨10, 0, 0, 8, 5556⟩)] ∧
    (OnReadEvent (fun fd _ => fd + 100)
        ([((4 : Nat), (⟨10, 0, 0, 9, 5555⟩ : SocketAddress)), (6, ⟨10, 0, 0, 8, 5556⟩)].map
          (fun p => AcceptOutcome.success p.1 p.2)
          ++ AcceptOutcome.fatalError :: [AcceptOutcome.fatalError])
        freshListenSocket).sockState = SockState.closing :=
  ⟨rfl, by norm_num [freshListenSocket],
    (onReadEvent_accept_loop_contract (fun fd _ => fd + 100) freshListenSocket
      [(4, ⟨10, 0, 0, 9, 5555⟩), (6, ⟨10, 0, 0, 8, 5556⟩)] [AcceptOutcome.fatalError]
      rfl (by norm_num [freshListenSocket])).1,
    (onReadEvent_accept_loop_contract (fun fd _ => fd + 100) freshListenSocket
      [(4, ⟨10, 0, 0, 9, 5555⟩), (6, ⟨10, 0, 0, 8, 5556⟩)] [AcceptOutcome.fatalError]
      rfl (by norm_num [freshListenSocket])).2.2.2.2.2.2⟩

/-- C7: Poll with timeout 0 on a multiplexer with no ready descriptors
returns immediately (zero time blocked) and dispatches zero callbacks; in
general a finite-timeout Poll blocks at most the timeout, returning at the
timeout with nothing dispatched when nothing becomes ready in time, and an
infinite-timeout Poll blocks until the first instant at which some
descriptor is ready. -/
theorem poll_timeout_contract (env : Nat → List Nat) (t : Nat)
    (hnone : env 0 = []) :
    Poll env 0 = ⟨0, []⟩ ∧
    (Poll env t).elapsed ≤ t ∧
    ((∀ u, u ≤ t → env u = []) → Poll env t = ⟨t, []⟩) ∧
    (∀ h2 : ∃ u, env u ≠ [],
      (PollInfinite env h2).dispatched ≠ [] ∧
      ∀ u, u < (PollInfinite env h2).elapsed → env u = []) := by
  refine ⟨?_, ?_, ?_, ?_⟩
  · rw [Poll]
    simp [firstReadyAux, hnone]
  · rcases hr : firstReadyAux env 0 (t + 1) with _ | r
    · rw [Poll, hr]
    · rw [Poll, hr]
      have := firstReadyAux_lt env (t + 1) 0 r hr
      simpa using by omega
  · intro hall
    rw [Poll, firstReadyAux_none env (t + 1) 0 (fun u _ hu => hall u (by omega))]
  · intro h2
    refine ⟨Nat.find_spec h2, fun u hu => ?_⟩
    have := Nat.find_min h2 (show u < Nat.find h2 from hu)
    by_contra hne
    exact this hne

/-- C7 witness: polling an always-empty schedule with timeout 0 returns
immediately with nothing dispatched; a schedule that becomes ready at
instant 2 keeps a 7ms poll within its timeout, and an infinite poll on it
returns a nonempty dispatch set. -/
theorem poll_timeout_contract_witness :
    (fun _ => ([] : List Nat)) 0 = [] ∧
    Poll (fun _ => ([] : List Nat)) 0 = ⟨0, []⟩ ∧
    (Poll (fun u => if u = 2 then [5] else []) 7).elapsed ≤ 7 ∧
    (PollInfinite (fun u => if u = 2 then [5] else [])
        ⟨2, by decide⟩).dispatched ≠ [] :=
  ⟨rfl, (poll_timeout_contract (fun _ => []) 0 rfl).1,
    (poll_timeout_contract (fun u => if u = 2 then [5] else []) 7 rfl).2.1,
    ((poll_timeout_contract (fun u => if u = 2 then [5] else []) 7 rfl).2.2.2
      ⟨2, by decide⟩).1⟩

/-- C9: Every String whose StringData carries ReferenceCount == -1 — the
sentinel every StaticString and StackString constructor sets — is never
shared by copy construction or assignment: the destination receives its own
copy of the characters, so after the copy, mutating either string through
its buffer leaves the other's contents unchanged. -/
theorem refcount_sentinel_forces_deep_copy (h : StringHeap) (src : Str)
    (Text : List Char) (L : Nat)
    (hrc : (readData h src).ReferenceCount = -1)
    (hvalid : src.m_pStringData < h.cells.length) :
    (StaticStringInit Text).ReferenceCount = -1 ∧
    (StackStringInit L).ReferenceCount = -1 ∧
    (Assign h src).2.m_pStringData ≠ src.m_pStringData ∧
    GetCharArray (Assign h src).1 (Assign h src).2 = GetCharArray h src ∧
    (∀ buf, GetCharArray (writeBuffer (Assign h src).1 (Assign h src).2 buf) src
        = GetCharArray h src) ∧
    (∀ buf, GetCharArray (writeBuffer (Assign h src).1 src buf) (Assign h src).2
        = GetCharArray h src) := by
  have hA : Assign h src
      = (⟨h.cells ++ [{ pBuffer := (readData h src).pBuffer
                        StringLength := (readData h src).StringLength
                        BufferSize := (readData h src).StringLength + 1
                        ReadOnly := false
                        ReferenceCount := 1 }]⟩,
         ⟨h.cells.length⟩) := by
    rw [Assign]
    simp only [hrc, if_pos]
  refine ⟨rfl, rfl, ?_, ?_, ?_, ?_⟩
  · rw [hA]
    intro hcontra
    simp only at hcontra
    omega
  · rw [hA, GetCharArray, GetCharArray, readData, readData]
    simp only
    rw [getD_append_self]
  · intro buf
    rw [hA, GetCharArray, GetCharArray, writeBuffer, readData, readData, readData]
    simp only
    rw [getD_set_ne _ _ _ _ (by omega), List.getD_append _ _ _ _ hvalid]
  · intro buf
    rw [hA, GetCharArray, GetCharArray, writeBuffer, readData, readData, readData]
    simp only
    rw [getD_set_ne _ _ _ _ (by omega), getD_append_self]

/-- C9 witness: copying from a one-cell heap holding a StaticString's data
(ReferenceCount -1) allocates a distinct cell with equal contents, and a
write through the copy leaves the original unchanged. -/
theorem refcount_sentinel_forces_deep_copy_witness :
    (readData ⟨[StaticStringInit "ab".data]⟩ ⟨0⟩).ReferenceCount = -1 ∧
    (⟨0⟩ : Str).m_pStringData < (⟨[StaticStringInit "ab".data]⟩ : StringHeap).cells.length ∧
    (Assign ⟨[StaticStringInit "ab".data]⟩ ⟨0⟩).2.m_pStringData ≠ (⟨0⟩ : Str).m_pStringData ∧
    GetCharArray (writeBuffer (Assign ⟨[StaticStringInit "ab".data]⟩ ⟨0⟩).1
        (Assign ⟨[StaticStringInit "ab".data]⟩ ⟨0⟩).2 "xy".data) ⟨0⟩
      = GetCharArray ⟨[StaticStringInit "ab".data]⟩ ⟨0⟩ :=
  ⟨rfl, by norm_num,
    (refcount_sentinel_forces_deep_copy ⟨[StaticStringInit "ab".data]⟩ ⟨0⟩
      "ab".data 4 rfl (by norm_num)).2.2.1,
    (refcount_sentinel_forces_deep_copy ⟨[StaticStringInit "ab".data]⟩ ⟨0⟩
      "ab".data 4 rfl (by norm_num)).2.2.2.2.1 "xy".data⟩

/-- Reading the cell just past a set-modified list extended by one cell. -/
theorem getD_set_append_self (l : List StringData) (i : Nat) (c a : StringData) :
    ((l.set i c) ++ [a]).getD l.length default = a := by
  rw [← List.length_set l i c]
  exact getD_append_self _ _

/-- C10: GetWriteableCharArray and GetWritableBufferSize first ensure the
string owns a unique writable copy of its data, so for two String objects
sharing copy-on-write data, writing through one's writable view never
changes the observable contents (GetCharArray, GetLength) of the other. -/
theorem writable_view_preserves_sharing_peer (h : StringHeap) (s t : Str)
    (hshare : s.m_pStringData = t.m_pStringData)
    (hvalid : t.m_pStringData < h.cells.length)
    (hrc : 2 ≤ (readData h t).ReferenceCount) :
    (GetWriteableCharArray h s).2.m_pStringData ≠ t.m_pStringData ∧
    (readData (GetWriteableCharArray h s).1 (GetWriteableCharArray h s).2).ReferenceCount = 1 ∧
    (readData (GetWriteableCharArray h s).1 (GetWriteableCharArray h s).2).ReadOnly = false ∧
    (GetWritableBufferSize h s).2
      = (readData (GetWriteableCharArray h s).1 (GetWriteableCharArray h s).2).BufferSize ∧
    (∀ buf,
      GetCharArray (writeBuffer (GetWriteableCharArray h s).1
          (GetWriteableCharArray h s).2 buf) t = GetCharArray h t ∧
      GetLength (writeBuffer (GetWriteableCharArray h s).1
          (GetWriteableCharArray h s).2 buf) t = GetLength h t) := by
  have hsd : readData h s = readData h t := by
    rw [readData, readData, hshare]
  have hne : ¬((readData h s).ReferenceCount = 1 ∧ (readData h s).ReadOnly = false) := by
    rw [hsd]
    rintro ⟨h1, _⟩
    omega
  have hE : GetWriteableCharArray h s
      = (⟨(h.cells.set s.m_pStringData
            { readData h s with
                ReferenceCount :=
                  if (readData h s).ReferenceCount > 0 then (readData h s).ReferenceCount - 1
                  else (readData h s).ReferenceCount }) ++
          [{ pBuffer := (readData h s).pBuffer
             StringLength := (readData h s).StringLength
             BufferSize := max (readData h s).BufferSize ((readData h s).StringLength + 1)
             ReadOnly := false
             ReferenceCount := 1 }]⟩,
         ⟨h.cells.length⟩) := by
    rw [GetWriteableCharArray, EnsureOwnWritableCopy]
    simp only [if_neg hne]
  have hread2 : readData (GetWriteableCharArray h s).1 (GetWriteableCharArray h s).2
      = { pBuffer := (readData h s).pBuffer
          StringLength := (readData h s).StringLength
          BufferSize := max (readData h s).BufferSize ((readData h s).StringLength + 1)
          ReadOnly := false
          ReferenceCount := 1 } := by
    rw [hE]
    simp only [readData]
    exact getD_set_append_self _ _ _ _
  refine ⟨?_, ?_, ?_, rfl, ?_⟩
  · rw [hE]
    intro hcontra
    simp only at hcontra
    omega
  · rw [hread2]
  · rw [hread2]
  · intro buf
    constructor
    · simp only [GetCharArray, writeBuffer, readData, hE]
      rw [hshare]
      rw [getD_set_ne _ _ _ _ (by omega)]
      rw [List.getD_append _ _ _ _ (by rw [List.length_set]; exact hvalid)]
      rw [getD_set_self _ _ _ hvalid]
    · simp only [GetLength, writeBuffer, readData, hE]
      rw [hshare]
      rw [getD_set_ne _ _ _ _ (by omega)]
      rw [List.getD_append _ _ _ _ (by rw [List.length_set]; exact hvalid)]
      rw [getD_set_self _ _ _ hvalid]

/-- C10 witness: on a one-cell heap whose cell is shared with reference
count 2, taking a writable view moves the writer to a fresh cell and a
write through it leaves the peer's contents intact. -/
theorem writable_view_preserves_sharing_peer_witness :
    (⟨0⟩ : Str).m_pStringData = (⟨0⟩ : Str).m_pStringData ∧
    (⟨0⟩ : Str).m_pStringData
      < (⟨[⟨"hi".data, 2, 8, false, 2⟩]⟩ : StringHeap).cells.length ∧
    2 ≤ (readData ⟨[⟨"hi".data, 2, 8, false, 2⟩]⟩ ⟨0⟩).ReferenceCount ∧
    (GetWriteableCharArray ⟨[⟨"hi".data, 2, 8, false, 2⟩]⟩ ⟨0⟩).2.m_pStringData
      ≠ (⟨0⟩ : Str).m_pStringData ∧
    GetCharArray
        (writeBuffer (GetWriteableCharArray ⟨[⟨"hi".data, 2, 8, false, 2⟩]⟩ ⟨0⟩).1
          (GetWriteableCharArray ⟨[⟨"hi".data, 2, 8, false, 2⟩]⟩ ⟨0⟩).2 "zz".data) ⟨0⟩
      = GetCharArray ⟨[⟨"hi".data, 2, 8, false, 2⟩]⟩ ⟨0⟩ :=
  ⟨rfl, by norm_num, by decide,
    (writable_view_preserves_sharing_peer ⟨[⟨"hi".data, 2, 8, false, 2⟩]⟩ ⟨0⟩ ⟨0⟩
      rfl (by norm_num) (by decide)).1,
    ((writable_view_preserves_sharing_peer ⟨[⟨"hi".data, 2, 8, false, 2⟩]⟩ ⟨0⟩ ⟨0⟩
      rfl (by norm_num) (by decide)).2.2.2.2 "zz".data).1⟩

/-- C6: For a Barrier configured with threadCount = N, in every state
reachable by interleaved Wait() steps: the entered-thread count never
exceeds N; no participant completes a second Wait() before every
participant has completed its first (the exit gate prevents re-entering
across generations); and while any thread has never arrived, every thread
has completed no Wait() and sits outside the barrier or blocked at the
enter gate — fewer than N callers block until the Nth arrives. -/
theorem barrier_two_phase_gate (N : Nat) (s : BarrierState)
    (hreach : BarrierReachable N s) :
    s.m_enteredThreadCount ≤ N ∧
    (∀ i j, i < N → j < N → s.completed i ≤ s.completed j + 1) ∧
    (∀ i j, i < N → j < N → s.arrived j = 0 →
      s.completed i = 0 ∧
      (s.pc i = BarrierPc.outside ∨ s.pc i = BarrierPc.atEnterGate)) := by
  have hinv := barrierInv_reachable hreach
  rcases hinv with ⟨g, hsem0, hent, hc2, hxsem, hxbr, hthread⟩ |
    ⟨g, hent, hsemE, hext, hxsem0, hc0, hthread⟩
  · refine ⟨?_, ?_, ?_⟩
    · rw [hent]
      exact cntPc_le N s.pc _
    · intro i j hi hj
      rcases hthread i hi with ⟨_, _, hci⟩ | ⟨_, _, hci⟩ | ⟨_, _, hci⟩ <;>
        rcases hthread j hj with ⟨_, _, hcj⟩ | ⟨_, _, hcj⟩ | ⟨_, _, hcj⟩ <;> omega
    · intro i j hi hj haj
      have hg : g = 0 := by
        rcases hthread j hj with ⟨_, ha, _⟩ | ⟨_, ha, _⟩ | ⟨_, ha, hc⟩ <;> omega
      rcases hthread i hi with ⟨hp, _, hc⟩ | ⟨hp, _, hc⟩ | ⟨_, _, hc⟩
      · exact ⟨by omega, Or.inl hp⟩
      · exact ⟨by omega, Or.inr hp⟩
      · exact absurd hc (by omega)
  · refine ⟨by omega, ?_, ?_⟩
    · intro i j hi hj
      have h1 := (hthread i hi).2.1
      have h2 := (hthread j hj).2.1
      omega
    · intro i j hi hj haj
      have h1 := (hthread j hj).1
      have h2 := (hthread j hj).2.1
      exact absurd h2 (by omega)

/-- C6 witness: for threadCount 2, after one thread has arrived (a state
reachable in one step from the fresh barrier), the entered count is within
bound and no thread is ahead of another by more than one completed
Wait(). -/
theorem barrier_two_phase_gate_witness :
    BarrierReachable 2 (arriveEffect 2 barrierInit 0) ∧
    (arriveEffect 2 barrierInit 0).m_enteredThreadCount ≤ 2 ∧
    (∀ i j, i < 2 → j < 2 →
      (arriveEffect 2 barrierInit 0).completed i
        ≤ (arriveEffect 2 barrierInit 0).completed j + 1) :=
  have hr : BarrierReachable 2 (arriveEffect 2 barrierInit 0) :=
    Relation.ReflTransGen.single (BarrierStep.arrive 0 (by decide) rfl)
  ⟨hr, (barrier_two_phase_gate 2 _ hr).1, (barrier_two_phase_gate 2 _ hr).2.1⟩

/-- C8: A SocketAddress constructed from the text "127.0.0.1:9000" renders
back to exactly that text (parse then render is the identity on this
input), and unparsable text fails with AddressParseError. -/
theorem socketAddress_roundtrip_127_0_0_1_9000 :
    ParseSocketAddress ("127.0.0.1:9000".data)
        = Except.ok ⟨127, 0, 0, 1, 9000⟩ ∧
    RenderSocketAddress ⟨127, 0, 0, 1, 9000⟩ = "127.0.0.1:9000".data ∧
    ParseSocketAddress ("not an address".data)
        = Except.error SocketLibError.AddressParseError :=
  ⟨rfl, rfl, rfl⟩

end YBase
